import Mathlib

/-
  Verification development for the NuPIC Input/Link/Output wiring subsystem
  (src/nta/engine/Input.hpp).

  The repository ships only the class declaration (Input.hpp); the method
  bodies (Input.cpp) are not part of the sources.  The data model below is a
  shallow embedding of the state declared in Input.hpp (links_,
  zeroCopyEnabled_, initialized_, data_, splitterMap_, linkOffsets_, size_),
  and every operation is modelled from the specification document, as noted
  in its doc comment.
-/

namespace NuPIC

/-- Modelled from the spec: the error taxonomy of section 7.  The method
bodies raising these (Input.cpp) are missing from the sources; only the
declarations in Input.hpp are present.  LookupMiss is not an error: it is
the `none` result of `findLink`. -/
inductive Err where
  | IllegalStateError : Err
  | DimensionConflict : Err
  | ConfigurationError : Err
deriving DecidableEq

/-- Dimensions: an ordered sequence of sizes, or `none` while still
"unknown" before negotiation (spec section 3). -/
abbrev Dims := Option (List Nat)

/-- A Link as declared in Input.hpp / spec section 3: link-type name,
opaque parameter string, reference to the source Output (by index),
the source region and output names used by `findLink`, the policy's
no-reindexing flag, independently resolvable source/destination
dimensions, and the cached per-link splitter sub-map. -/
structure Link where
  linkType : String
  linkParams : String
  srcRegionName : String
  srcOutputName : String
  srcOutput : Nat
  noReindex : Bool
  srcDims : Dims
  destDims : Dims
  subMap : List (List Nat)
deriving DecidableEq

/-- An Output (spec section 4.2): owning region's name, its own name,
element type tag, current buffer contents, and the non-owning list of
attached Links. -/
structure Output where
  regionName : String
  outName : String
  etype : Nat
  buffer : List Int
  attachedLinks : List Link
deriving DecidableEq

/-- The aggregated buffer of an Input: either an exclusively owned copy
target, or (zero-copy case) an alias onto the sole source Output's buffer
— never both, by construction (spec section 3). -/
inductive DataRef where
  | owned : List Int → DataRef
  | aliased : Nat → DataRef
deriving DecidableEq

/-- The state of one Input, mirroring the data members declared in
Input.hpp: etype (the NTA_BasicType passed at construction),
isRegionLevel_, name_, links_, zeroCopyEnabled_, initialized_, data_,
splitterMap_ (the lazily built cache, `none` until built), linkOffsets_
and size_. -/
structure InputState where
  etype : Nat
  isRegionLevel : Bool
  name : String
  links : List Link
  zeroCopyEnabled : Bool
  initialized : Bool
  data : DataRef
  splitterMap : Option (List (List Nat))
  linkOffsets : List Nat
  size : Nat
deriving DecidableEq

/-- The world an Input operates in: the owning Region's initialized flag
and dimensions (spec section 4.4 collaborator contract), the Outputs the
links read from, and the Input itself. -/
structure World where
  regionInitialized : Bool
  regionDims : Dims
  outputs : List Output
  inp : InputState
deriving DecidableEq

def defOut : Output :=
  { regionName := "", outName := "", etype := 0, buffer := [], attachedLinks := [] }

def defLink : Link :=
  { linkType := "", linkParams := "", srcRegionName := "", srcOutputName := "",
    srcOutput := 0, noReindex := false, srcDims := none, destDims := none, subMap := [] }

/-- A link's contributed size: the element count of its resolved
destination dimensions (spec section 3: `size` is the sum of all links'
contributed sizes). -/
def linkSize (l : Link) : Nat := (l.destDims.getD []).prod

/-- The element type a link carries: its source Output's element type. -/
def linkEType (w : World) (l : Link) : Nat := (w.outputs.getD l.srcOutput defOut).etype

/-- The current buffer of a link's source Output. -/
def outBuf (w : World) (l : Link) : List Int := (w.outputs.getD l.srcOutput defOut).buffer

/-- A link's contribution for one cycle: the first `linkSize l` elements of
its source Output's current buffer. -/
def contrib (w : World) (l : Link) : List Int := (outBuf w l).take (linkSize l)

/-- Modelled from the spec (Input.cpp is missing): the zero-copy
eligibility rule — exactly one link, that link's element type matches the
Input's element type, and its policy requires no reindexing (spec
sections 3 and 9, conservative single-link-exact-match rule). -/
def zeroCopyOk (w : World) : Bool :=
  match w.inp.links with
  | [l] => (linkEType w l == w.inp.etype) && l.noReindex
  | _ => false

/-- The per-link offsets into the aggregated buffer together with the
total size, as cached in linkOffsets_ and size_ of Input.hpp: the first
link starts at the running offset `a`, the next at `a + size(link[0])`,
and so on (comment at Input.hpp lines 182-188). -/
def offsetsFrom (a : Nat) : List Nat → List Nat × Nat
  | [] => ([], a)
  | s :: rest =>
    let p := offsetsFrom (a + s) rest
    (a :: p.1, p.2)

/-- Modelled from the spec (Input.cpp is missing): `Input::initialize` —
fails with IllegalStateError if already initialized or if any link is
still dimension-unresolved; otherwise computes and stores the per-link
offsets and total size, installs the aggregated buffer (an owned
zero-filled buffer sized to the sum of contributions, or, when the
zero-copy condition holds, an alias onto the sole source Output's
buffer), and marks the Input initialized (spec section 4.3). -/
def initIn (w : World) : Except Err World :=
  if w.inp.initialized then .error .IllegalStateError
  else if w.inp.links.any (fun l => l.destDims.isNone) then .error .IllegalStateError
  else .ok { w with inp := { w.inp with
    initialized := true,
    linkOffsets := (offsetsFrom 0 (w.inp.links.map linkSize)).1,
    size := (offsetsFrom 0 (w.inp.links.map linkSize)).2,
    data := if zeroCopyOk w
      then .aliased ((w.inp.links.headD defLink).srcOutput)
      else .owned (List.replicate (offsetsFrom 0 (w.inp.links.map linkSize)).2 0),
    zeroCopyEnabled := zeroCopyOk w } }

/-- Overwrite `buf` starting at `off` with the elements of `src`. -/
def writeAt (buf : List Int) (off : Nat) (src : List Int) : List Int :=
  buf.take off ++ src ++ buf.drop (off + src.length)

/-- Copy each listed contribution into the buffer at its cached offset,
in list order. -/
def prepareBuf : List (List Int × Nat) → List Int → List Int
  | [], buf => buf
  | (c, off) :: rest, buf => prepareBuf rest (writeAt buf off c)

/-- Modelled from the spec (Input.cpp is missing): `Input::prepare` —
fails with IllegalStateError if the Input is not initialized; a no-op
under zero-copy aliasing; otherwise copies each link's contribution from
its source Output's current buffer into the owned aggregated buffer at
the link's cached offset, strictly in link declaration order (spec
section 4.3). -/
def prepare (w : World) : Except Err World :=
  if w.inp.initialized = false then .error .IllegalStateError
  else
    match w.inp.data with
    | .aliased _ => .ok w
    | .owned buf =>
      .ok { w with inp := { w.inp with
        data := .owned (prepareBuf ((w.inp.links.map (contrib w)).zip w.inp.linkOffsets) buf) } }

/-- Modelled from the spec (Input.cpp is missing): `Input::getData` —
returns the current aggregated buffer contents; under zero-copy aliasing
it reads through to the sole source Output's current buffer. -/
def getData (w : World) : List Int :=
  match w.inp.data with
  | .owned b => b
  | .aliased i => (w.outputs.getD i defOut).buffer

/-- Replace the buffer of output `i` (a mutation the owning region
performs between cycles, outside this core). -/
def setOutBuf (w : World) (i : Nat) (b : List Int) : World :=
  { w with outputs := w.outputs.set i { w.outputs.getD i defOut with buffer := b } }

/-- Releasing an Input's volatile state: frees the aggregated buffer and
the splitter-map cache but does not affect the links (comment at
Input.hpp lines 196-205). -/
def uninitInp (inp : InputState) : InputState :=
  { inp with initialized := false, data := .owned [], splitterMap := none,
             linkOffsets := [], size := 0 }

/-- Modelled from the spec (Input.cpp is missing): `Input::uninitialize`
— fails with IllegalStateError if the owning Region currently reports
initialized; otherwise releases the aggregated buffer and clears the
splitter-map cache, leaving the link sequence untouched (spec
section 4.3, Input.hpp lines 196-205). -/
def uninit (w : World) : Except Err World :=
  if w.regionInitialized then .error .IllegalStateError
  else .ok { w with inp := uninitInp w.inp }

/-- Modelled from the spec (Input.cpp is missing): `Input::addLink` —
fails with IllegalStateError if the owning Region is already initialized;
otherwise appends the new Link (order = call order) to the owned
sequence, registers it with the source Output, and invalidates the
splitter-map cache (spec sections 3 and 4.3).  Construction/validation of
the Link against the policy catalog is outside this core; the constructed
Link is the argument. -/
def addLink (w : World) (l : Link) : Except Err World :=
  if w.regionInitialized then .error .IllegalStateError
  else .ok { w with
    outputs := w.outputs.set l.srcOutput
      { w.outputs.getD l.srcOutput defOut with
        attachedLinks := (w.outputs.getD l.srcOutput defOut).attachedLinks ++ [l] },
    inp := { w.inp with links := w.inp.links ++ [l], splitterMap := none } }

/-- Modelled from the spec (Input.cpp is missing): `Input::removeLink` —
fails with IllegalStateError if the owning Region is initialized;
otherwise releases the Input's volatile state (uninitialize is called by
removeLink, Input.hpp lines 196-205), detaches the link from both this
Input's sequence and the source Output's list, and returns `none` as the
caller's cleared handle (the Link*& set to NULL, Input.hpp line 98). -/
def removeLink (w : World) (l : Link) : Except Err (World × Option Link) :=
  if w.regionInitialized then .error .IllegalStateError
  else .ok ({ w with
    outputs := w.outputs.set l.srcOutput
      { w.outputs.getD l.srcOutput defOut with
        attachedLinks := (w.outputs.getD l.srcOutput defOut).attachedLinks.erase l },
    inp := { uninitInp w.inp with links := w.inp.links.erase l } }, none)

/-- Modelled from the spec (Input.cpp is missing): `Input::findLink` — a
linear scan over the owned links for a matching source region name and
source output name; total, returning `none` on a miss (NULL per the
comment at Input.hpp lines 79-85) rather than raising. -/
def findLink (w : World) (srcRegionName srcOutputName : String) : Option Link :=
  w.inp.links.find? (fun l =>
    l.srcRegionName == srcRegionName && l.srcOutputName == srcOutputName)

/-- Number of destination sub-nodes: the element count of the Region's
dimensions. -/
def numNodes (w : World) : Nat := (w.regionDims.getD []).prod

/-- Modelled from the spec (Input.cpp is missing): the full splitter map
— one entry per destination sub-node, built by concatenating each link's
own sub-map entry for that sub-node, offset by the link's position in the
aggregated buffer (spec sections 3 and 4.3). -/
def buildSplitterMap (w : World) : List (List Nat) :=
  (List.range (numNodes w)).map (fun j =>
    ((w.inp.links.zip w.inp.linkOffsets).map
      (fun p => (p.1.subMap.getD j []).map (fun k => k + p.2))).flatten)

/-- Modelled from the spec (Input.cpp is missing): `Input::getSplitterMap`
— only legal on an initialized Input; builds the full map on the first
call after initialization and caches it in splitterMap_ (mutable cache,
Input.hpp lines 174-179); returns the cached map thereafter. -/
def getSplitterMap (w : World) : Except Err (List (List Nat) × World) :=
  if w.inp.initialized = false then .error .IllegalStateError
  else
    match w.inp.splitterMap with
    | some m => .ok (m, w)
    | none => .ok (buildSplitterMap w,
        { w with inp := { w.inp with splitterMap := some (buildSplitterMap w) } })

/-- Modelled from the spec (Input.cpp is missing): one step of a link's
dimension resolution inside `Input::evaluateLinks` — if the link's source
side is already known, derive the destination-implied dimensions from it;
otherwise, if the destination (the Region) already knows its shape,
induce the source dimensions from it; otherwise leave the link
unresolved (spec sections 4.1 and 4.3). -/
def linkStep (rdims : Dims) (l : Link) : Link :=
  match l.srcDims with
  | some s => { l with destDims := some s }
  | none =>
    match rdims with
    | some d => { l with srcDims := some d, destDims := some d }
    | none => l

/-- Modelled from the spec (Input.cpp is missing): reconciliation of the
links' destination-implied dimensions with the Region's own dimensions —
induces the Region's dimensions when unset, fails with DimensionConflict
when two non-unknown shapes are incompatible (spec section 4.3). -/
def reconcile (rdims : Dims) : List (List Nat) → Except Err Dims
  | [] => .ok rdims
  | d :: rest =>
    match rdims with
    | none => reconcile (some d) rest
    | some r => if d = r then reconcile (some r) rest else .error .DimensionConflict

/-- Modelled from the spec (Input.cpp is missing): `Input::evaluateLinks`
— runs one resolution step on every owned link, reconciles all
destination-implied dimensions into one shape for this Input (inducing
the Region's dimensions or failing with DimensionConflict), and returns
the count of links still unresolved (spec section 4.3, Input.hpp lines
119-133). -/
def evaluateLinks (w : World) : Except Err (Nat × World) :=
  match reconcile w.regionDims
      ((w.inp.links.map (linkStep w.regionDims)).filterMap (fun l => l.destDims)) with
  | .error e => .error e
  | .ok rd => .ok ((w.inp.links.map (linkStep w.regionDims)).countP (fun l => l.destDims.isNone),
      { w with regionDims := rd,
               inp := { w.inp with links := w.inp.links.map (linkStep w.regionDims) } })

/-! Concrete example instances, used by the witnesses below.  `wAB` is the
spec's worked example (section 8): an Input with two links A and B
contributing 4 and 3 elements in that declaration order. -/

def outA : Output :=
  { regionName := "R1", outName := "o1", etype := 0, buffer := [1, 2, 3, 4], attachedLinks := [] }

def outB : Output :=
  { regionName := "R2", outName := "o2", etype := 0, buffer := [5, 6, 7], attachedLinks := [] }

def linkA : Link :=
  { linkType := "t"
    linkParams := ""
    srcRegionName := "R1"
    srcOutputName := "o1"
    srcOutput := 0
    noReindex := false
    srcDims := some [4]
    destDims := some [4]
    subMap := [[0, 1], [2, 3]] }

def linkB : Link :=
  { linkType := "t"
    linkParams := ""
    srcRegionName := "R2"
    srcOutputName := "o2"
    srcOutput := 1
    noReindex := false
    srcDims := some [3]
    destDims := some [3]
    subMap := [[0], [1, 2]] }

def inpAB : InputState :=
  { etype := 0
    isRegionLevel := false
    name := "bottomUpIn"
    links := [linkA, linkB]
    zeroCopyEnabled := false
    initialized := false
    data := .owned []
    splitterMap := none
    linkOffsets := []
    size := 0 }

def wAB : World :=
  { regionInitialized := false
    regionDims := some [2]
    outputs := [outA, outB]
    inp := inpAB }

/-- `wAB` after Input initialization: total size 7, offsets [0, 4]. -/
def inpABi : InputState :=
  { inpAB with initialized := true, linkOffsets := [0, 4], size := 7,
               data := .owned (List.replicate 7 0) }

def wABi : World :=
  { wAB with inp := inpABi }

/-- `wABi` after the splitter map has been built and cached. -/
def wABs : World :=
  { wAB with inp := { inpABi with splitterMap := some [[0, 1, 4], [2, 3, 5, 6]] } }

/-- `wAB` with the owning Region initialized. -/
def wABr : World :=
  { wAB with regionInitialized := true }

/-- `wABi` after `uninitialize`: volatile state released. -/
def wABun : World :=
  { wAB with inp := uninitInp inpABi }

/-- Single-link world meeting the zero-copy condition (matching element
type, policy requiring no reindexing). -/
def linkZ : Link :=
  { linkA with noReindex := true }

def inpZ : InputState :=
  { inpAB with name := "zin", links := [linkZ] }

def wZ : World :=
  { regionInitialized := false
    regionDims := some [4]
    outputs := [outA]
    inp := inpZ }

def wZi : World :=
  { wZ with inp := { inpZ with initialized := true, linkOffsets := [0], size := 4,
                               data := .aliased 0, zeroCopyEnabled := true } }

/-- Two unresolved links; `linkP`'s source side is already known as [8]. -/
def linkP : Link :=
  { linkA with srcDims := some [8], destDims := none, subMap := [] }

def linkQ : Link :=
  { linkB with srcDims := none, destDims := none, subMap := [] }

def inpE : InputState :=
  { inpAB with name := "ein", links := [linkP, linkQ] }

def wE : World :=
  { regionInitialized := false
    regionDims := none
    outputs := [outA, outB]
    inp := inpE }

def linkP1 : Link :=
  { linkP with destDims := some [8] }

def linkQ1 : Link :=
  { linkQ with srcDims := some [8], destDims := some [8] }

/-- `wE` after one evaluateLinks pass: linkP resolved, Region dims induced. -/
def wE1 : World :=
  { wE with regionDims := some [8], inp := { inpE with links := [linkP1, linkQ] } }

/-- `wE` after two evaluateLinks passes: fully resolved. -/
def wE2 : World :=
  { wE with regionDims := some [8], inp := { inpE with links := [linkP1, linkQ1] } }

/-- Two links implying destination shapes [8] and [4, 2]: equal element
count, incompatible shape (spec section 8 example). -/
def linkC2 : Link :=
  { linkB with srcDims := some [4, 2], destDims := none, subMap := [] }

def wC : World :=
  { regionInitialized := false
    regionDims := none
    outputs := [outA, outB]
    inp := { inpAB with name := "cin", links := [linkP, linkC2] } }

/-! Helper lemmas. -/

theorem map_id_of_mem {α : Type} {f : α → α} :
    ∀ {l : List α}, (∀ a ∈ l, f a = a) → l.map f = l := by
  intro l h
  induction l with
  | nil => rfl
  | cons a t ih =>
    simp only [List.map_cons, h a (List.mem_cons_self a t),
      ih (fun b hb => h b (List.mem_cons_of_mem a hb))]

theorem offsetsFrom_length : ∀ (ss : List Nat) (a : Nat),
    (offsetsFrom a ss).1.length = ss.length := by
  intro ss
  induction ss with
  | nil => intro a; rfl
  | cons s rest ih => intro a; simp [offsetsFrom, ih]

theorem offsetsFrom_total : ∀ (ss : List Nat) (a : Nat),
    (offsetsFrom a ss).2 = a + ss.sum := by
  intro ss
  induction ss with
  | nil => intro a; simp [offsetsFrom]
  | cons s rest ih => intro a; simp [offsetsFrom, ih]; omega

theorem offsetsFrom_zero (s : Nat) (ss : List Nat) (a : Nat) :
    (offsetsFrom a (s :: ss)).1.getD 0 0 = a := by
  simp [offsetsFrom]

theorem offsetsFrom_succ : ∀ (ss : List Nat) (a i : Nat), i + 1 < ss.length →
    (offsetsFrom a ss).1.getD (i + 1) 0 = (offsetsFrom a ss).1.getD i 0 + ss.getD i 0 := by
  intro ss
  induction ss with
  | nil => intro a i h; simp at h
  | cons s rest ih =>
    intro a i h
    cases i with
    | zero =>
      cases rest with
      | nil => simp at h
      | cons r rest' =>
        simp [offsetsFrom, List.getD_cons_zero, List.getD_cons_succ]
    | succ j =>
      have hj : j + 1 < rest.length := by simpa using h
      simpa [offsetsFrom, List.getD_cons_succ] using ih (a + s) j hj

/-- Inversion for a successful `initIn`. -/
theorem initIn_ok_eq {w w' : World} (h : initIn w = .ok w') :
    w.inp.initialized = false ∧
    (∀ l ∈ w.inp.links, l.destDims ≠ none) ∧
    w' = { w with inp := { w.inp with
      initialized := true,
      linkOffsets := (offsetsFrom 0 (w.inp.links.map linkSize)).1,
      size := (offsetsFrom 0 (w.inp.links.map linkSize)).2,
      data := if zeroCopyOk w then .aliased ((w.inp.links.headD defLink).srcOutput)
              else .owned (List.replicate (offsetsFrom 0 (w.inp.links.map linkSize)).2 0),
      zeroCopyEnabled := zeroCopyOk w } } := by
  unfold initIn at h
  split at h
  · exact absurd h (by simp)
  · split at h
    · exact absurd h (by simp)
    · rename_i h1 h2
      refine ⟨by simpa using h1, ?_, ?_⟩
      · intro l hl
        simp only [List.any_eq_true, not_exists, not_and] at h2
        push_neg at h2
        have := h2 l hl
        simpa [Option.isNone_iff_eq_none] using this
      · have := h
        simp only [Except.ok.injEq] at this
        exact this.symm

/-- Claim C3: `initialize()` fails with IllegalStateError exactly when the
Input is already initialized or some link is still dimension-unresolved;
on success it stores the per-link offsets, sets the size to the sum of
the links' contributed sizes, allocates an owned buffer of that size
(or, when the zero-copy condition holds, aliases the sole source
Output's buffer) and marks the Input initialized. -/
theorem claimC3 (w : World) :
    (initIn w = .error .IllegalStateError ↔
      w.inp.initialized = true ∨ ∃ l ∈ w.inp.links, l.destDims = none) ∧
    (∀ w', initIn w = .ok w' →
      w'.inp.initialized = true ∧
      w'.inp.linkOffsets = (offsetsFrom 0 (w.inp.links.map linkSize)).1 ∧
      w'.inp.size = (w.inp.links.map linkSize).sum ∧
      (zeroCopyOk w = false →
        ∃ b, w'.inp.data = .owned b ∧ b.length = (w.inp.links.map linkSize).sum) ∧
      (zeroCopyOk w = true →
        w'.inp.data = .aliased ((w.inp.links.headD defLink).srcOutput))) := by
  constructor
  · unfold initIn
    split
    · rename_i h1
      simp [h1]
    · rename_i h1
      split
      · rename_i h2
        simp only [List.any_eq_true, Option.isNone_iff_eq_none] at h2
        simp [h1, h2]
      · rename_i h2
        simp only [List.any_eq_true, Option.isNone_iff_eq_none] at h2
        simp [h1, h2]
  · intro w' h
    obtain ⟨-, -, hw⟩ := initIn_ok_eq h
    subst hw
    refine ⟨rfl, rfl, ?_, ?_, ?_⟩
    · simp [offsetsFrom_total]
    · intro hz
      refine ⟨List.replicate ((w.inp.links.map linkSize).sum) 0, ?_, by simp⟩
      simp [hz, offsetsFrom_total]
    · intro hz
      simp [hz]

/-- Witness for C3: on the worked two-link example, a second initialize
fails with IllegalStateError, and the successful initialize marked the
Input initialized with size 7 = 4 + 3. -/
theorem claimC3_wit :
    initIn wABi = .error .IllegalStateError ∧
    wABi.inp.initialized = true ∧
    wABi.inp.size = (wAB.inp.links.map linkSize).sum :=
  ⟨(claimC3 wABi).1.mpr (Or.inl (by decide)),
   ((claimC3 wAB).2 wABi (by rfl)).1,
   ((claimC3 wAB).2 wABi (by rfl)).2.2.1⟩

/-- Claim C1: after a successful `initialize()` the offset sequence has one
entry per link, starts at 0, satisfies `offsets[i+1] = offsets[i] +
size(links[i])`, and is strictly increasing whenever every link's
contributed size is positive (dimensions are positive sizes); moreover
the per-cycle operations `prepare` and `getSplitterMap` leave the links,
the offsets and the initialized flag unchanged, so the invariant holds in
every initialized state. -/
theorem claimC1 (w w' : World) (h : initIn w = .ok w') :
    w'.inp.linkOffsets.length = w'.inp.links.length ∧
    (w'.inp.links ≠ [] → w'.inp.linkOffsets.getD 0 0 = 0) ∧
    (∀ i, i + 1 < w'.inp.links.length →
      w'.inp.linkOffsets.getD (i + 1) 0 =
        w'.inp.linkOffsets.getD i 0 + linkSize (w'.inp.links.getD i defLink)) ∧
    ((∀ l ∈ w'.inp.links, 0 < linkSize l) → ∀ i, i + 1 < w'.inp.links.length →
      w'.inp.linkOffsets.getD i 0 < w'.inp.linkOffsets.getD (i + 1) 0) ∧
    (∀ w'', prepare w' = .ok w'' →
      w''.inp.linkOffsets = w'.inp.linkOffsets ∧ w''.inp.links = w'.inp.links ∧
      w''.inp.initialized = w'.inp.initialized) ∧
    (∀ m w'', getSplitterMap w' = .ok (m, w'') →
      w''.inp.linkOffsets = w'.inp.linkOffsets ∧ w''.inp.links = w'.inp.links ∧
      w''.inp.initialized = w'.inp.initialized) := by
  obtain ⟨-, -, hw⟩ := initIn_ok_eq h
  have hlinks : w'.inp.links = w.inp.links := by rw [hw]
  have hoffs : w'.inp.linkOffsets = (offsetsFrom 0 (w.inp.links.map linkSize)).1 := by rw [hw]
  have hsucc : ∀ i, i + 1 < w'.inp.links.length →
      w'.inp.linkOffsets.getD (i + 1) 0 =
        w'.inp.linkOffsets.getD i 0 + linkSize (w'.inp.links.getD i defLink) := by
    intro i hi
    rw [hlinks] at hi
    have hi' : i + 1 < (w.inp.links.map linkSize).length := by simpa using hi
    have hstep := offsetsFrom_succ (w.inp.links.map linkSize) 0 i hi'
    rw [hoffs, hlinks, hstep]
    have hii : i < w.inp.links.length := by omega
    have : (w.inp.links.map linkSize).getD i 0 = linkSize (w.inp.links.getD i defLink) := by
      rw [List.getD_eq_getElem _ _ (by simpa using hii), List.getD_eq_getElem _ _ hii,
        List.getElem_map]
    rw [this]
  refine ⟨?_, ?_, hsucc, ?_, ?_, ?_⟩
  · rw [hoffs, hlinks, offsetsFrom_length]
    simp
  · intro hne
    rw [hlinks] at hne
    rw [hoffs]
    obtain ⟨x, xs, hl⟩ : ∃ x xs, w.inp.links = x :: xs := by
      cases hc : w.inp.links with
      | nil => exact absurd hc hne
      | cons x xs => exact ⟨x, xs, rfl⟩
    rw [hl, List.map_cons, offsetsFrom_zero]
  · intro hpos i hi
    have := hsucc i hi
    rw [this]
    have hii : i < w'.inp.links.length := by omega
    have hmem : w'.inp.links.getD i defLink ∈ w'.inp.links := by
      rw [List.getD_eq_getElem _ _ hii]
      exact List.getElem_mem hii
    have := hpos _ hmem
    omega
  · intro w'' hp
    unfold prepare at hp
    split at hp
    · exact absurd hp (by simp)
    · split at hp
      · simp only [Except.ok.injEq] at hp
        subst hp
        exact ⟨rfl, rfl, rfl⟩
      · simp only [Except.ok.injEq] at hp
        subst hp
        exact ⟨rfl, rfl, rfl⟩
  · intro m w'' hs
    unfold getSplitterMap at hs
    split at hs
    · exact absurd hs (by simp)
    · split at hs
      · simp only [Except.ok.injEq, Prod.mk.injEq] at hs
        obtain ⟨-, hw''⟩ := hs
        subst hw''
        exact ⟨rfl, rfl, rfl⟩
      · simp only [Except.ok.injEq, Prod.mk.injEq] at hs
        obtain ⟨-, hw''⟩ := hs
        subst hw''
        exact ⟨rfl, rfl, rfl⟩

/-- Witness for C1: on the worked example (links contributing 4 and 3),
after initialization the offsets have length 2, start at 0, step by
link A's size, and increase strictly. -/
theorem claimC1_wit :
    wABi.inp.linkOffsets.length = wABi.inp.links.length ∧
    wABi.inp.linkOffsets.getD 0 0 = 0 ∧
    wABi.inp.linkOffsets.getD 1 0 =
      wABi.inp.linkOffsets.getD 0 0 + linkSize (wABi.inp.links.getD 0 defLink) ∧
    wABi.inp.linkOffsets.getD 0 0 < wABi.inp.linkOffsets.getD 1 0 :=
  have h := claimC1 wAB wABi (by rfl)
  ⟨h.1, h.2.1 (by decide), h.2.2.1 0 (by decide), h.2.2.2.1 (by decide) 0 (by decide)⟩

/-- Claim C2: zero-copy aliasing holds iff the Input has exactly one link
whose element type matches the Input's and whose policy requires no
reindexing; in that case the aggregated buffer aliases the sole source
Output's buffer and a mutation of that buffer is visible through
`getData` with no `prepare` call; in every other case the buffer is an
owned copy target. -/
theorem claimC2 (w w' : World) (h : initIn w = .ok w') :
    (∀ l, w.inp.links = [l] → linkEType w l = w.inp.etype → l.noReindex = true →
      w'.inp.data = .aliased l.srcOutput ∧
      (l.srcOutput < w.outputs.length →
        ∀ b, getData (setOutBuf w' l.srcOutput b) = b)) ∧
    (zeroCopyOk w = false → ∃ buf, w'.inp.data = .owned buf) ∧
    ((∃ o, w'.inp.data = .aliased o) ↔ zeroCopyOk w = true) ∧
    (zeroCopyOk w = true ↔
      ∃ l, w.inp.links = [l] ∧ linkEType w l = w.inp.etype ∧ l.noReindex = true) := by
  obtain ⟨-, -, hw⟩ := initIn_ok_eq h
  have hout : w'.outputs = w.outputs := by rw [hw]
  have hcond : zeroCopyOk w = true ↔
      ∃ l, w.inp.links = [l] ∧ linkEType w l = w.inp.etype ∧ l.noReindex = true := by
    unfold zeroCopyOk
    cases hl : w.inp.links with
    | nil => simp
    | cons x xs =>
      cases xs with
      | nil => simp [beq_iff_eq]
      | cons y ys => simp
  have hdata : w'.inp.data =
      (if zeroCopyOk w then DataRef.aliased ((w.inp.links.headD defLink).srcOutput)
       else .owned (List.replicate (offsetsFrom 0 (w.inp.links.map linkSize)).2 0)) := by
    rw [hw]
  refine ⟨?_, ?_, ?_, hcond⟩
  · intro l hl het hnr
    have hz : zeroCopyOk w = true := hcond.mpr ⟨l, hl, het, hnr⟩
    have hd : w'.inp.data = .aliased l.srcOutput := by
      rw [hdata, hz, hl]
      simp
    refine ⟨hd, ?_⟩
    intro hlt b
    have hlt' : l.srcOutput < w'.outputs.length := by rw [hout]; exact hlt
    have hset : l.srcOutput <
        (w'.outputs.set l.srcOutput
          { w'.outputs.getD l.srcOutput defOut with buffer := b }).length := by
      rw [List.length_set]; exact hlt'
    have hgd : getData (setOutBuf w' l.srcOutput b) =
        ((w'.outputs.set l.srcOutput
          { w'.outputs.getD l.srcOutput defOut with buffer := b }).getD
            l.srcOutput defOut).buffer := by
      simp only [getData, setOutBuf, hd]
    rw [hgd, List.getD_eq_getElem _ _ hset, List.getElem_set_self]
  · intro hz
    rw [hdata, hz]
    simp
  · constructor
    · rintro ⟨o, ho⟩
      by_contra hz
      rw [Bool.not_eq_true] at hz
      rw [hdata, hz] at ho
      simp at ho
    · intro hz
      rw [hdata, hz]
      simp

/-- Witness for C2: the single-link matching world `wZ` initializes to an
alias onto output 0, and a mutation of that output's buffer is visible
through `getData` with no `prepare` call. -/
theorem claimC2_wit :
    wZi.inp.data = .aliased 0 ∧ getData (setOutBuf wZi 0 [9, 9, 9, 9]) = [9, 9, 9, 9] :=
  have h := (claimC2 wZ wZi (by rfl)).1 linkZ (by rfl) (by decide) (by decide)
  ⟨h.1, h.2 (by decide) [9, 9, 9, 9]⟩

/-- Writing consecutive contributions at the offsets computed by
`offsetsFrom` fills the tail of the buffer with their concatenation. -/
theorem prepareBuf_concat : ∀ (cs : List (List Int)) (a : Nat) (buf : List Int),
    buf.length = a + (cs.map List.length).sum →
    prepareBuf (cs.zip (offsetsFrom a (cs.map List.length)).1) buf =
      buf.take a ++ cs.flatten := by
  intro cs
  induction cs with
  | nil =>
    intro a buf h
    simp only [List.map_nil, List.sum_nil, Nat.add_zero] at h
    subst h
    simp [prepareBuf, offsetsFrom, List.take_length]
  | cons c cs ih =>
    intro a buf h
    simp only [List.map_cons, List.sum_cons] at h
    have ha : a ≤ buf.length := by omega
    have hlen : (writeAt buf a c).length = buf.length := by
      have h1 : (writeAt buf a c).length =
          min a buf.length + (c.length + (buf.length - (a + c.length))) := by
        simp [writeAt, List.length_take, List.length_drop]
      rw [min_eq_left ha] at h1
      omega
    have hlen2 : (writeAt buf a c).length = (a + c.length) + (cs.map List.length).sum := by
      rw [hlen]; omega
    have hih := ih (a + c.length) (writeAt buf a c) hlen2
    have htake : (writeAt buf a c).take (a + c.length) = buf.take a ++ c := by
      have h2 : (buf.take a ++ c).length = a + c.length := by
        simp [List.length_take, min_eq_left ha]
      calc (writeAt buf a c).take (a + c.length)
          = ((buf.take a ++ c) ++ buf.drop (a + c.length)).take (a + c.length) := by
            simp [writeAt, List.append_assoc]
        _ = buf.take a ++ c := List.take_left' h2
    simp only [List.map_cons, offsetsFrom, List.zip_cons_cons, prepareBuf]
    unfold List.zip at hih
    rw [hih, htake, List.flatten_cons, List.append_assoc]

/-- Claim C4: `prepare` fails with IllegalStateError exactly when the Input
is not initialized; it is a no-op under zero-copy aliasing; and on a
freshly initialized non-zero-copy Input it fills the aggregated buffer
with the links' contributions in declaration order, each at its cached
offset, so the buffer becomes the concatenation of the contributions. -/
theorem claimC4 (w : World) :
    (prepare w = .error .IllegalStateError ↔ w.inp.initialized = false) ∧
    (∀ o, w.inp.initialized = true → w.inp.data = .aliased o → prepare w = .ok w) ∧
    (∀ w', initIn w = .ok w' → zeroCopyOk w = false →
      (∀ l ∈ w.inp.links, linkSize l ≤ (outBuf w l).length) →
      ∃ w'', prepare w' = .ok w'' ∧
        getData w'' = (w.inp.links.map (contrib w)).flatten) := by
  refine ⟨?_, ?_, ?_⟩
  · unfold prepare
    split
    · rename_i h1
      simp [h1]
    · rename_i h1
      rw [Bool.not_eq_false] at h1
      split
      · simp [h1]
      · simp [h1]
  · intro o hinit hdata
    simp [prepare, hinit, hdata]
  · intro w' h hz hfit
    obtain ⟨-, -, hw⟩ := initIn_ok_eq h
    have hout : w'.outputs = w.outputs := by rw [hw]
    have hinit : w'.inp.initialized = true := by rw [hw]
    have hlinks : w'.inp.links = w.inp.links := by rw [hw]
    have hoffs : w'.inp.linkOffsets = (offsetsFrom 0 (w.inp.links.map linkSize)).1 := by
      rw [hw]
    have hdata : w'.inp.data =
        .owned (List.replicate (offsetsFrom 0 (w.inp.links.map linkSize)).2 0) := by
      rw [hw]
      simp [hz]
    have hcontrib : ∀ l, contrib w' l = contrib w l := by
      intro l
      unfold contrib outBuf
      rw [hout]
    have hclen : (w.inp.links.map (contrib w)).map List.length =
        w.inp.links.map linkSize := by
      rw [List.map_map]
      apply List.map_congr_left
      intro l hl
      have := hfit l hl
      simp only [Function.comp_apply, contrib, List.length_take]
      exact min_eq_left this
    have hblen : (List.replicate (offsetsFrom 0 (w.inp.links.map linkSize)).2 (0 : Int)).length
        = 0 + ((w.inp.links.map (contrib w)).map List.length).sum := by
      rw [List.length_replicate, offsetsFrom_total, hclen]
    have hkey := prepareBuf_concat (w.inp.links.map (contrib w)) 0
      (List.replicate (offsetsFrom 0 (w.inp.links.map linkSize)).2 0) hblen
    rw [hclen] at hkey
    have hmapc : w'.inp.links.map (contrib w') = w.inp.links.map (contrib w) := by
      rw [hlinks]
      exact List.map_congr_left (fun l _ => hcontrib l)
    have hprep : prepare w' = .ok { w' with inp := { w'.inp with
        data := .owned (prepareBuf ((w'.inp.links.map (contrib w')).zip w'.inp.linkOffsets)
          (List.replicate (offsetsFrom 0 (w.inp.links.map linkSize)).2 0)) } } := by
      unfold prepare
      split
      · rename_i hc
        rw [hinit] at hc
        exact absurd hc (by simp)
      · split
        · rename_i o ho
          rw [hdata] at ho
          exact absurd ho (by simp)
        · rename_i buf hbuf
          rw [hdata] at hbuf
          simp only [DataRef.owned.injEq] at hbuf
          rw [← hbuf]
    refine ⟨_, hprep, ?_⟩
    unfold getData
    dsimp only
    rw [hmapc, hoffs, hkey]
    simp

/-- Witness for C4: the spec's worked example — links A and B contributing
4 and 3 elements; after initialize and prepare, the aggregated buffer is
A's elements at positions 0-3 followed by B's at positions 4-6. -/
theorem claimC4_wit :
    (∃ w'', prepare wABi = .ok w'' ∧
      getData w'' = (wAB.inp.links.map (contrib wAB)).flatten) ∧
    (wAB.inp.links.map (contrib wAB)).flatten = [1, 2, 3, 4, 5, 6, 7] :=
  ⟨(claimC4 wAB).2.2 wABi (by rfl) (by decide) (by decide), by decide⟩

/-! Lemmas about dimension reconciliation and the per-link resolution step. -/

theorem reconcile_some_ok : ∀ {ds : List (List Nat)} {x : List Nat} {r : Dims},
    reconcile (some x) ds = .ok r → r = some x := by
  intro ds
  induction ds with
  | nil =>
    intro x r h
    simp only [reconcile, Except.ok.injEq] at h
    exact h.symm
  | cons d rest ih =>
    intro x r h
    simp only [reconcile] at h
    split at h
    · exact ih h
    · exact absurd h (by simp)

theorem reconcile_ok_none : ∀ {ds : List (List Nat)} {rd : Dims},
    reconcile rd ds = .ok none → rd = none ∧ ds = [] := by
  intro ds rd h
  cases ds with
  | nil =>
    simp only [reconcile, Except.ok.injEq] at h
    exact ⟨h, rfl⟩
  | cons d rest =>
    exfalso
    cases rd with
    | none =>
      simp only [reconcile] at h
      have := reconcile_some_ok h
      simp at this
    | some x =>
      simp only [reconcile] at h
      split at h
      · have := reconcile_some_ok h
        simp at this
      · simp at h

theorem reconcile_ok_mem : ∀ {ds : List (List Nat)} {rd r : Dims},
    reconcile rd ds = .ok r → ∀ d ∈ ds, r = some d := by
  intro ds
  induction ds with
  | nil =>
    intro rd r h d hd
    simp at hd
  | cons e rest ih =>
    intro rd r h d hd
    cases rd with
    | none =>
      simp only [reconcile] at h
      rcases List.mem_cons.mp hd with he | hrest
      · subst he
        exact reconcile_some_ok h
      · exact ih h d hrest
    | some x =>
      simp only [reconcile] at h
      split at h
      · rename_i hex
        rcases List.mem_cons.mp hd with he | hrest
        · subst he
          rw [reconcile_some_ok h, hex]
        · exact ih h d hrest
      · exact absurd h (by simp)

theorem reconcile_idem : ∀ {ds : List (List Nat)} {rd r : Dims},
    reconcile rd ds = .ok r → reconcile r ds = .ok r := by
  intro ds
  induction ds with
  | nil =>
    intro rd r h
    simp only [reconcile]
  | cons e rest ih =>
    intro rd r h
    cases rd with
    | none =>
      simp only [reconcile] at h
      have hr : r = some e := reconcile_some_ok h
      subst hr
      simp only [reconcile, if_pos]
      exact ih h
    | some x =>
      simp only [reconcile] at h
      split at h
      · rename_i hex
        have hr : r = some x := reconcile_some_ok h
        subst hr
        simp only [reconcile, hex, if_pos]
        exact ih h
      · exact absurd h (by simp)

theorem reconcile_ok_or_conflict : ∀ (ds : List (List Nat)) (rd : Dims),
    (∃ r, reconcile rd ds = .ok r) ∨ reconcile rd ds = .error .DimensionConflict := by
  intro ds
  induction ds with
  | nil =>
    intro rd
    exact Or.inl ⟨rd, rfl⟩
  | cons e rest ih =>
    intro rd
    cases rd with
    | none => simpa only [reconcile] using ih (some e)
    | some x =>
      by_cases hex : e = x
      · simp only [reconcile, if_pos hex]
        exact ih (some x)
      · right
        simp [reconcile, hex]

theorem linkStep_destDims_of_src {rd : Dims} {l : Link} {s : List Nat}
    (h : l.srcDims = some s) : (linkStep rd l).destDims = some s := by
  simp [linkStep, h]

theorem linkStep_srcDims_some {rd : Dims} {l : Link} {s : List Nat}
    (h : (linkStep rd l).srcDims = some s) : (linkStep rd l).destDims = some s := by
  unfold linkStep at h ⊢
  cases hs : l.srcDims with
  | some t =>
    simp [hs] at h ⊢
    exact h
  | none =>
    cases hr : rd with
    | some d =>
      simp [hs, hr] at h ⊢
      exact h
    | none =>
      rw [hs, hr] at h
      simp at h
      exact absurd h (by simp [hs])

theorem linkStep_srcDims_none {rd : Dims} {l : Link}
    (h : (linkStep rd l).srcDims = none) :
    rd = none ∧ l.srcDims = none ∧ linkStep rd l = l := by
  unfold linkStep at h ⊢
  cases hs : l.srcDims with
  | some t => simp [hs] at h
  | none =>
    cases hr : rd with
    | some d => simp [hs, hr] at h
    | none => exact ⟨rfl, rfl, by simp [hs]⟩

theorem linkStep_of_none_none {l : Link} (h : l.srcDims = none) :
    linkStep none l = l := by
  simp [linkStep, h]

theorem linkStep_fix {rd : Dims} {l : Link} {s : List Nat}
    (h1 : l.srcDims = some s) (h2 : l.destDims = some s) : linkStep rd l = l := by
  cases l
  simp only [linkStep] at *
  simp_all

/-- Inversion for a successful `evaluateLinks`. -/
theorem evaluateLinks_ok_eq {w : World} {n : Nat} {w' : World}
    (h : evaluateLinks w = .ok (n, w')) :
    reconcile w.regionDims
      ((w.inp.links.map (linkStep w.regionDims)).filterMap (fun l => l.destDims))
      = .ok w'.regionDims ∧
    w'.inp.links = w.inp.links.map (linkStep w.regionDims) ∧
    n = w'.inp.links.countP (fun l => l.destDims.isNone) ∧
    w' = { w with regionDims := w'.regionDims,
                  inp := { w.inp with links := w'.inp.links } } := by
  unfold evaluateLinks at h
  split at h
  · exact absurd h (by simp)
  · rename_i rd hrec
    simp only [Except.ok.injEq, Prod.mk.injEq] at h
    obtain ⟨hn, hw⟩ := h
    subst hw
    exact ⟨hrec, rfl, hn.symm, rfl⟩

/-- Computation rule for a successful `evaluateLinks`. -/
theorem evaluateLinks_eq_ok {w : World} {rd : Dims}
    (h : reconcile w.regionDims
      ((w.inp.links.map (linkStep w.regionDims)).filterMap (fun l => l.destDims)) = .ok rd) :
    evaluateLinks w = .ok
      ((w.inp.links.map (linkStep w.regionDims)).countP (fun l => l.destDims.isNone),
       { w with regionDims := rd,
                inp := { w.inp with links := w.inp.links.map (linkStep w.regionDims) } }) := by
  unfold evaluateLinks
  rw [h]

/-- Claim C5: when two owned links imply incompatible non-unknown
destination shapes, `evaluateLinks` fails with DimensionConflict. -/
theorem claimC5 (w : World) (l₁ l₂ : Link) (a b : List Nat)
    (h₁ : l₁ ∈ w.inp.links) (h₂ : l₂ ∈ w.inp.links)
    (ha : l₁.srcDims = some a) (hb : l₂.srcDims = some b) (hab : a ≠ b) :
    evaluateLinks w = .error .DimensionConflict := by
  have hmem : ∀ (l : Link) (s : List Nat), l ∈ w.inp.links → l.srcDims = some s →
      s ∈ (w.inp.links.map (linkStep w.regionDims)).filterMap (fun l => l.destDims) := by
    intro l s hl hs
    exact List.mem_filterMap.mpr
      ⟨linkStep w.regionDims l, List.mem_map.mpr ⟨l, hl, rfl⟩, linkStep_destDims_of_src hs⟩
  have hma := hmem l₁ a h₁ ha
  have hmb := hmem l₂ b h₂ hb
  rcases reconcile_ok_or_conflict
      ((w.inp.links.map (linkStep w.regionDims)).filterMap (fun l => l.destDims))
      w.regionDims with ⟨r, hr⟩ | herr
  · exfalso
    have hra := reconcile_ok_mem hr a hma
    have hrb := reconcile_ok_mem hr b hmb
    rw [hra] at hrb
    exact hab (Option.some.inj hrb)
  · unfold evaluateLinks
    rw [herr]

/-- Witness for C5: the spec's example — two links implying destination
shapes [8] and [4, 2] (equal element count, incompatible shape) make
`evaluateLinks` fail with DimensionConflict. -/
theorem claimC5_wit : evaluateLinks wC = .error .DimensionConflict :=
  claimC5 wC linkP linkC2 [8] [4, 2] (by decide) (by decide) (by decide) (by decide)
    (by decide)

/-- Claim C6: `evaluateLinks` returns the count of links still
dimension-unresolved, and with no intervening configuration change the
iteration is idempotent at its fixed point: after two successful calls
the state no longer changes and every further call returns the same
count and the same resolved dimensions. -/
theorem claimC6 :
    (∀ w n w', evaluateLinks w = .ok (n, w') →
      n = w'.inp.links.countP (fun l => l.destDims.isNone)) ∧
    (∀ w n₁ w₁ n₂ w₂, evaluateLinks w = .ok (n₁, w₁) → evaluateLinks w₁ = .ok (n₂, w₂) →
      evaluateLinks w₂ = .ok (n₂, w₂)) := by
  constructor
  · intro w n w' h
    exact (evaluateLinks_ok_eq h).2.2.1
  · intro w n₁ w₁ n₂ w₂ h₁ h₂
    obtain ⟨hrec₁, hl₁, hn₁, hw₁⟩ := evaluateLinks_ok_eq h₁
    obtain ⟨hrec₂, hl₂, hn₂, hw₂⟩ := evaluateLinks_ok_eq h₂
    have hfix : ∀ l ∈ w₂.inp.links, linkStep w₂.regionDims l = l := by
      intro l hl
      have hlm : l ∈ w₁.inp.links.map (linkStep w₁.regionDims) := by
        rw [← hl₂]
        exact hl
      obtain ⟨m, hm, hml⟩ := List.mem_map.mp hlm
      cases hs : l.srcDims with
      | some s =>
        have hd : l.destDims = some s := by
          rw [← hml] at hs ⊢
          exact linkStep_srcDims_some hs
        exact linkStep_fix hs hd
      | none =>
        have h3 : w₁.regionDims = none ∧ m.srcDims = none ∧
            linkStep w₁.regionDims m = m := by
          apply linkStep_srcDims_none
          rw [hml]
          exact hs
        obtain ⟨hrd1, -, -⟩ := h3
        have hrec₁' := hrec₁
        rw [hrd1] at hrec₁'
        obtain ⟨-, hemp⟩ := reconcile_ok_none hrec₁'
        have hall : ∀ x ∈ w₁.inp.links, x.destDims = none := by
          intro x hx
          have hx' : x ∈ w.inp.links.map (linkStep w.regionDims) := by
            rw [← hl₁]
            exact hx
          exact (List.filterMap_eq_nil_iff.mp hemp) x hx'
        have hsrc : ∀ x ∈ w₁.inp.links, x.srcDims = none := by
          intro x hx
          cases hxs : x.srcDims with
          | none => rfl
          | some s =>
            exfalso
            have hx' : x ∈ w.inp.links.map (linkStep w.regionDims) := by
              rw [← hl₁]
              exact hx
            obtain ⟨y, hy, hyx⟩ := List.mem_map.mp hx'
            have hxd : x.destDims = some s := by
              rw [← hyx] at hxs ⊢
              exact linkStep_srcDims_some hxs
            rw [hall x hx] at hxd
            exact Option.noConfusion hxd
        have hid : w₂.inp.links = w₁.inp.links := by
          rw [hl₂, hrd1]
          exact map_id_of_mem (fun x hx => linkStep_of_none_none (hsrc x hx))
        have hemp₂ : w₂.inp.links.filterMap (fun l => l.destDims) = [] := by
          rw [hid]
          exact List.filterMap_eq_nil_iff.mpr hall
        have hrd2 : w₂.regionDims = none := by
          have h5 := hrec₂
          rw [← hl₂, hemp₂, hrd1] at h5
          simp only [reconcile, Except.ok.injEq] at h5
          exact h5.symm
        rw [hrd2]
        exact linkStep_of_none_none hs
    have hmap : w₂.inp.links.map (linkStep w₂.regionDims) = w₂.inp.links :=
      map_id_of_mem hfix
    have hrec₂' : reconcile w₂.regionDims
        ((w₂.inp.links.map (linkStep w₂.regionDims)).filterMap (fun l => l.destDims))
        = .ok w₂.regionDims := by
      rw [hmap]
      have h5 := hrec₂
      rw [← hl₂] at h5
      exact reconcile_idem h5
    have h6 := evaluateLinks_eq_ok hrec₂'
    rw [hmap] at h6
    rw [← hn₂] at h6
    have heta : ({ w₂ with regionDims := w₂.regionDims, inp := { w₂.inp with links := w₂.inp.links } } : World) = w₂ := rfl
    rw [heta] at h6
    exact h6

/-- Witness for C6: on `wE` (one source side known as [8], one link fully
unknown) the first call returns 1 unresolved and induces the Region
dimensions, the second resolves everything, and the third call reproduces
the second's state and count exactly. -/
theorem claimC6_wit :
    (1 = wE1.inp.links.countP (fun l => l.destDims.isNone)) ∧
    evaluateLinks wE2 = .ok (0, wE2) :=
  ⟨claimC6.1 wE 1 wE1 (by rfl), claimC6.2 wE 1 wE1 0 wE2 (by rfl) (by rfl)⟩

/-- Claim C7: the wiring mutations are gated on the owning Region's
initialized flag — `addLink` and `removeLink` fail with IllegalStateError
exactly while the Region is initialized; otherwise `addLink` appends the
new Link in call order and registers it with the source Output, and
`removeLink` succeeds, returning `none` as the caller's cleared handle. -/
theorem claimC7 (w : World) (l : Link) :
    (w.regionInitialized = true →
      addLink w l = .error .IllegalStateError ∧
      removeLink w l = .error .IllegalStateError) ∧
    (w.regionInitialized = false →
      (∃ w', addLink w l = .ok w' ∧
        w'.inp.links = w.inp.links ++ [l] ∧
        (l.srcOutput < w.outputs.length →
          (w'.outputs.getD l.srcOutput defOut).attachedLinks =
            (w.outputs.getD l.srcOutput defOut).attachedLinks ++ [l])) ∧
      (∃ w', removeLink w l = .ok (w', none))) := by
  constructor
  · intro h
    exact ⟨by simp [addLink, h], by simp [removeLink, h]⟩
  · intro h
    constructor
    · refine ⟨{ w with outputs := w.outputs.set l.srcOutput { w.outputs.getD l.srcOutput defOut with attachedLinks := (w.outputs.getD l.srcOutput defOut).attachedLinks ++ [l] }, inp := { w.inp with links := w.inp.links ++ [l], splitterMap := none } }, ?_, rfl, ?_⟩
      · simp [addLink, h]
      · intro hlt
        dsimp only
        rw [List.getD_eq_getElem _ _ (by rw [List.length_set]; exact hlt),
          List.getElem_set_self]
    · exact ⟨{ w with outputs := w.outputs.set l.srcOutput { w.outputs.getD l.srcOutput defOut with attachedLinks := (w.outputs.getD l.srcOutput defOut).attachedLinks.erase l }, inp := { uninitInp w.inp with links := w.inp.links.erase l } }, by simp [removeLink, h]⟩

/-- Witness for C7: on the two-link example, both mutations fail while the
Region is initialized and succeed (appending/clearing the handle) once it
is not. -/
theorem claimC7_wit :
    addLink wABr linkA = .error .IllegalStateError ∧
    removeLink wABr linkA = .error .IllegalStateError ∧
    (∃ w', addLink wAB linkA = .ok w' ∧
      w'.inp.links = wAB.inp.links ++ [linkA] ∧
      (linkA.srcOutput < wAB.outputs.length →
        (w'.outputs.getD linkA.srcOutput defOut).attachedLinks =
          (wAB.outputs.getD linkA.srcOutput defOut).attachedLinks ++ [linkA])) ∧
    (∃ w', removeLink wAB linkA = .ok (w', none)) :=
  ⟨((claimC7 wABr linkA).1 rfl).1, ((claimC7 wABr linkA).1 rfl).2,
   ((claimC7 wAB linkA).2 rfl).1, ((claimC7 wAB linkA).2 rfl).2⟩

/-- Claim C8: on an initialized Input, `getSplitterMap` is built on the
first call by concatenating each link's own sub-map offset by that link's
position, cached, and a second call with no intervening wiring change
returns the identical result; the cache is cleared by `uninitialize` and
by any wiring change (`addLink`, `removeLink`). -/
theorem claimC8 (w : World) :
    (∀ m w', getSplitterMap w = .ok (m, w') → getSplitterMap w' = .ok (m, w')) ∧
    (w.inp.initialized = true → w.inp.splitterMap = none →
      getSplitterMap w = .ok (buildSplitterMap w, { w with inp := { w.inp with splitterMap := some (buildSplitterMap w) } })) ∧
    (∀ w', uninit w = .ok w' → w'.inp.splitterMap = none) ∧
    (∀ l w', addLink w l = .ok w' → w'.inp.splitterMap = none) ∧
    (∀ l w' hdl, removeLink w l = .ok (w', hdl) → w'.inp.splitterMap = none) := by
  refine ⟨?_, ?_, ?_, ?_, ?_⟩
  · intro m w' h
    unfold getSplitterMap at h ⊢
    split at h
    · exact absurd h (by simp)
    · rename_i hinit
      have hinit' : w.inp.initialized = true := by simpa using hinit
      split at h
      · rename_i m₀ hm₀
        simp only [Except.ok.injEq, Prod.mk.injEq] at h
        obtain ⟨hm, hw⟩ := h
        subst hw
        subst hm
        simp [hinit', hm₀]
      · rename_i hm₀
        simp only [Except.ok.injEq, Prod.mk.injEq] at h
        obtain ⟨hm, hw⟩ := h
        subst hw
        subst hm
        simp [hinit']
  · intro hinit hcache
    unfold getSplitterMap
    rw [if_neg (by simp [hinit]), hcache]
  · intro w' h
    unfold uninit at h
    split at h
    · exact absurd h (by simp)
    · simp only [Except.ok.injEq] at h
      subst h
      rfl
  · intro l w' h
    unfold addLink at h
    split at h
    · exact absurd h (by simp)
    · simp only [Except.ok.injEq] at h
      subst h
      rfl
  · intro l w' hdl h
    unfold removeLink at h
    split at h
    · exact absurd h (by simp)
    · simp only [Except.ok.injEq, Prod.mk.injEq] at h
      obtain ⟨hw, -⟩ := h
      subst hw
      rfl

/-- Witness for C8: on the example world with the splitter map already
cached, calling `getSplitterMap` returns the identical cached map and
leaves the state unchanged. -/
theorem claimC8_wit :
    getSplitterMap wABs = .ok ([[0, 1, 4], [2, 3, 5, 6]], wABs) :=
  (claimC8 wABi).1 [[0, 1, 4], [2, 3, 5, 6]] wABs (by rfl)

/-- Claim C9: `uninitialize` fails with IllegalStateError exactly while
the owning Region reports initialized; otherwise it releases the
aggregated buffer and clears the splitter-map cache while leaving the
link sequence unchanged. -/
theorem claimC9 (w : World) :
    (uninit w = .error .IllegalStateError ↔ w.regionInitialized = true) ∧
    (∀ w', uninit w = .ok w' →
      w'.inp.data = .owned [] ∧ w'.inp.splitterMap = none ∧
      w'.inp.initialized = false ∧ w'.inp.links = w.inp.links) := by
  constructor
  · unfold uninit
    split
    · rename_i h
      simp [h]
    · rename_i h
      simp [h]
  · intro w' h
    unfold uninit at h
    split at h
    · exact absurd h (by simp)
    · simp only [Except.ok.injEq] at h
      subst h
      exact ⟨rfl, rfl, rfl, rfl⟩

/-- Witness for C9: `uninitialize` fails on the Region-initialized example
and, on the initialized-Input example, releases the buffer and cache
without touching the two links. -/
theorem claimC9_wit :
    uninit wABr = .error .IllegalStateError ∧
    (wABun.inp.data = .owned [] ∧ wABun.inp.splitterMap = none ∧
      wABun.inp.initialized = false ∧ wABun.inp.links = wABi.inp.links) :=
  ⟨(claimC9 wABr).1.mpr rfl, (claimC9 wABi).2 wABun (by rfl)⟩

/-- Claim C10: `findLink` is total — it returns `none` (the NULL miss, not
an exception) exactly when no owned link matches the given source region
and output names, and any `some` result is a matching owned link. -/
theorem claimC10 (w : World) (r o : String) :
    (findLink w r o = none ↔
      ∀ l ∈ w.inp.links, ¬(l.srcRegionName = r ∧ l.srcOutputName = o)) ∧
    (∀ l, findLink w r o = some l →
      l ∈ w.inp.links ∧ l.srcRegionName = r ∧ l.srcOutputName = o) := by
  constructor
  · unfold findLink
    rw [List.find?_eq_none]
    constructor
    · intro h l hl
      have := h l hl
      simpa [beq_iff_eq] using this
    · intro h l hl
      have := h l hl
      simpa [beq_iff_eq] using this
  · intro l h
    have hmem := List.mem_of_find?_eq_some h
    have hp := List.find?_some h
    simp only [Bool.and_eq_true, beq_iff_eq] at hp
    exact ⟨hmem, hp.1, hp.2⟩

/-- Witness for C10: on the two-link example, the scan finds link A for
("R1", "o1") and reports a miss (none, not an error) for the absent
region name "RX". -/
theorem claimC10_wit :
    (linkA ∈ wAB.inp.links ∧ linkA.srcRegionName = "R1" ∧ linkA.srcOutputName = "o1") ∧
    (∀ l ∈ wAB.inp.links, ¬(l.srcRegionName = "RX" ∧ l.srcOutputName = "o1")) :=
  ⟨(claimC10 wAB "R1" "o1").2 linkA (by rfl), (claimC10 wAB "RX" "o1").1.mp (by rfl)⟩

end NuPIC
